import Mathlib

/-!
Verification of the tinycrab core against its specification.

Shallow embedding of the tinycrab subsystems (cron service, message bus,
subagent manager, memory store, session-key utilities, supervisor
reconciliation, session manager, per-agent HTTP server) in Lean 4, with
theorems settling the specification claims.

Modelling conventions:
* JavaScript numbers holding millisecond timestamps and counters are
  modelled as `Int` (idealized exact integer arithmetic; all values of
  interest are far below 2^53 where JS numbers are exact).
* `Date.now()` readings become explicit `Int` parameters, one per call site.
* Optional fields become `Option`; JS truthiness of an optional string is
  modelled explicitly where the source relies on it.
* The external `cron-parser` library is an oracle parameter: `some t` models
  a successful `parseExpression(...).next().getTime()`, `none` a parse error.
* Asynchronous code is modelled by explicit state passing; for the two
  claims about interleavings (session manager single-flight, agent-server
  concurrency) a small-step transition system over task states is used, with
  one atomic step per synchronous block between `await` suspension points.
-/

namespace Tinycrab

/-- ASCII lowercasing of a single character, as JS `toLowerCase` acts on the
ASCII range (the identifiers handled by tinycrab are ASCII). -/
def toLowerChar (c : Char) : Char :=
  if 65 ≤ c.toNat ∧ c.toNat ≤ 90 then Char.ofNat (c.toNat + 32) else c

/-- ASCII lowercasing of a string. -/
def strToLower (s : String) : String := String.mk (s.data.map toLowerChar)

/-- JS truthiness of an optional string: `undefined` and the empty string
are falsy. -/
def jsTruthyStr : Option String → Bool
  | none => false
  | some s => s != ""

namespace Cron

/-- Schedule variants, from `CronSchedule` in `src/cron/types.ts`. -/
inductive CronSchedule where
  | at (atMs : Int)
  | every (everyMs : Int) (anchorMs : Option Int)
  | cron (expr : String) (tz : Option String)
deriving Repr, DecidableEq

/-- Payload variants, from `CronPayload` in `src/cron/types.ts`. -/
inductive CronPayload where
  | systemEvent (text : String)
  | agentTurn (message : String) (deliver : Option Bool)
      (channel : Option String) (chatId : Option String)
deriving Repr, DecidableEq

/-- Last-run status, from the `lastStatus` field of `CronJobState`. -/
inductive LastStatus where
  | ok
  | error
  | skipped
deriving Repr, DecidableEq

/-- Per-job state, from `CronJobState` in `src/cron/types.ts`. -/
structure CronJobState where
  nextRunAtMs : Option Int := none
  runningAtMs : Option Int := none
  lastRunAtMs : Option Int := none
  lastStatus : Option LastStatus := none
  lastError : Option String := none
  lastDurationMs : Option Int := none
deriving Repr, DecidableEq

/-- A cron job, from `CronJob` in `src/cron/types.ts`.  The optional
`deleteAfterRun` flag is a `Bool` (`undefined` is falsy in the source's
`if (job.deleteAfterRun)` check). -/
structure CronJob where
  id : String
  name : String
  description : Option String := none
  enabled : Bool
  deleteAfterRun : Bool := false
  createdAtMs : Int
  updatedAtMs : Int
  schedule : CronSchedule
  payload : CronPayload
  state : CronJobState
deriving Repr, DecidableEq

/-- Oracle modelling the external `cron-parser` library: given the
expression, timezone and current time, `some t` is the next occurrence
returned by `interval.next().getTime()`, `none` models a parse failure. -/
def CronOracle : Type := String → Option String → Int → Option Int

/-- From `CronService.parseNextCron` (`src/cron/service.ts`): next cron
occurrence via the library, falling back to one minute from now when the
expression does not parse. -/
def parseNextCron (oracle : CronOracle) (now : Int) (expr : String)
    (tz : Option String) : Int :=
  match oracle expr tz now with
  | some t => t
  | none => now + 60000

/-- From `CronService.computeNextRun` (`src/cron/service.ts`).
`Math.floor(elapsed / schedule.everyMs)` is floor division on the idealized
integers, i.e. `Int.fdiv`. -/
def computeNextRun (oracle : CronOracle) (now : Int) :
    CronSchedule → Int
  | .at atMs => if atMs > now then atMs else now + 1000
  | .every everyMs anchorMs =>
      let anchor := anchorMs.getD now
      let elapsed := now - anchor
      let periods := Int.fdiv elapsed everyMs
      anchor + (periods + 1) * everyMs
  | .cron expr tz => parseNextCron oracle now expr tz

/-- In-memory state of a `CronService`: the job list, the set of job ids
with a pending one-shot timer (the keys of the `timers` map), and the
`running` flag. -/
structure ServiceState where
  jobs : List CronJob
  timers : List String
  running : Bool
deriving Repr, DecidableEq

/-- From `CronService.cancelJobTimer`: clear and drop the job's timer. -/
def cancelJobTimer (s : ServiceState) (jobId : String) : ServiceState :=
  { s with timers := s.timers.filter (fun t => t ≠ jobId) }

/-- From `CronService.scheduleJob`: cancel any existing timer for the job,
then register a fresh one (the timer delay itself is not needed by the
claims, only which jobs hold a timer). -/
def scheduleJob (s : ServiceState) (job : CronJob) : ServiceState :=
  let s' := cancelJobTimer s job.id
  { s' with timers := s'.timers ++ [job.id] }

/-- Replace the job with the given id by its mutated version (the source
mutates the job object held inside `this.jobs` in place). -/
def replaceById (jobs : List CronJob) (j : CronJob) : List CronJob :=
  jobs.map (fun x => if x.id = j.id then j else x)

/-- Remove the first job with the given id, as
`this.jobs.findIndex(...)` plus `splice(idx, 1)` does. -/
def removeFirstById : List CronJob → String → List CronJob
  | [], _ => []
  | j :: rest, i => if j.id = i then rest else j :: removeFirstById rest i

/-- Outcome of the injected `deps.executeJob(job)` callback: a returned
result (`string | undefined`) or a thrown error message. -/
def ExecOutcome : Type := Except String (Option String)

/-- From `CronService.executeJob` (`src/cron/service.ts`, lines 163-213).
`t0`, `t1`, `t2` are the three successive `Date.now()` readings (start,
duration sampling, and the one inside `computeNextRun`).  Returns the value
propagated to the caller (result or rethrown error) and the state after the
in-memory mutations (the `save()` persistence write mirrors `jobs`). -/
def executeJob (oracle : CronOracle) (t0 t1 t2 : Int) (job : CronJob)
    (outcome : ExecOutcome) (s : ServiceState) :
    ExecOutcome × ServiceState :=
  match outcome with
  | .ok result =>
      let job' : CronJob := { job with state :=
        { job.state with
            lastRunAtMs := some t0
            lastDurationMs := some (t1 - t0)
            lastStatus := some .ok
            lastError := none
            runningAtMs := none
            nextRunAtMs := some (computeNextRun oracle t2 job.schedule) } }
      let s1 := { s with jobs := replaceById s.jobs job' }
      let s2 :=
        if job'.deleteAfterRun then
          cancelJobTimer { s1 with jobs := removeFirstById s1.jobs job'.id }
            job'.id
        else if s1.running && job'.enabled then
          scheduleJob s1 job'
        else s1
      (.ok result, s2)
  | .error message =>
      let job' : CronJob := { job with state :=
        { job.state with
            lastRunAtMs := some t0
            lastDurationMs := some (t1 - t0)
            lastStatus := some .error
            lastError := some message
            runningAtMs := none
            nextRunAtMs := some (computeNextRun oracle t2 job.schedule) } }
      let s1 := { s with jobs := replaceById s.jobs job' }
      let s2 :=
        if s1.running && job'.enabled then scheduleJob s1 job' else s1
      (.error message, s2)

/-- From `CronService.list`: all jobs when `includeDisabled`, otherwise only
the enabled ones. -/
def listJobs (s : ServiceState) (includeDisabled : Bool) : List CronJob :=
  if includeDisabled then s.jobs else s.jobs.filter (fun j => j.enabled)

/-- Execution mode of `CronService.run`. -/
inductive RunMode where
  | due
  | force
deriving Repr, DecidableEq

/-- From `CronService.run` (`src/cron/service.ts`, lines 148-161): look the
job up by id, skip when mode is `due` and the next run is still in the
future (`tDue` is that `Date.now()` reading; the source guards with the JS
truthiness of `nextRunAtMs`, under which a `0` timestamp is falsy),
otherwise execute. -/
def run (oracle : CronOracle) (tDue t0 t1 t2 : Int) (s : ServiceState)
    (id : String) (mode : RunMode) (outcome : ExecOutcome) :
    ExecOutcome × ServiceState :=
  match s.jobs.find? (fun j => j.id = id) with
  | none => (.error ("Job not found: " ++ id), s)
  | some job =>
      let nextTruthy : Bool :=
        match job.state.nextRunAtMs with
        | some t => t ≠ 0 && t > tDue
        | none => false
      if mode = .due ∧ nextTruthy then (.ok none, s)
      else executeJob oracle t0 t1 t2 job outcome s

/-- Next-run computation transcribed from the specification's words
(spec section 4.7, "Next-run computation"), to be compared with the
implementation's `computeNextRun`:
"at(atMs): if atMs > now use atMs; else now + 1s";
"every(everyMs, anchorMs?): with anchor = anchorMs ?? now, compute
anchor + (floor((now-anchor)/everyMs) + 1) * everyMs";
"cron(expr, tz?): parse as a standard 5-field cron expression, return the
next occurrence; on parse failure return now + 60s". -/
def specNextRun (oracle : CronOracle) (now : Int) : CronSchedule → Int
  | .at atMs => if atMs > now then atMs else now + 1000
  | .every everyMs anchorMs =>
      let anchor := anchorMs.getD now
      anchor + (Int.fdiv (now - anchor) everyMs + 1) * everyMs
  | .cron expr tz =>
      match oracle expr tz now with
      | some t => t
      | none => now + 60000

/-- C7: `CronService.computeNextRun` follows the specification's
next-run definition exactly, on every schedule: `at(atMs)` yields `atMs`
when `atMs > now` and `now + 1000` otherwise; `every(everyMs, anchorMs?)`
yields `anchor + (floor((now - anchor) / everyMs) + 1) * everyMs` with
`anchor = anchorMs ?? now`; and `cron(expr, tz?)` yields the parser's next
occurrence, and `now + 60000` when the expression fails to parse. -/
theorem computeNextRun_eq_spec (oracle : CronOracle) (now : Int)
    (schedule : CronSchedule) :
    computeNextRun oracle now schedule = specNextRun oracle now schedule := by
  cases schedule with
  | «at» atMs => rfl
  | every everyMs anchorMs => rfl
  | cron expr tz =>
      simp only [computeNextRun, specNextRun, parseNextCron]

/-- Admissibility condition of claim C9 on a schedule: `at` always, `every`
with a positive period, and `cron` only on the invalid-expression fallback
branch. -/
def ScheduleFuture (oracle : CronOracle) (now : Int) : CronSchedule → Prop
  | .at _ => True
  | .every everyMs _ => 0 < everyMs
  | .cron expr tz => oracle expr tz now = none

/-- C9: for `at` schedules, for `every` schedules with positive `everyMs`
and any anchor, and for the invalid-expression fallback branch of `cron`
schedules, `computeNextRun` returns a timestamp strictly greater than
`now`, so a freshly computed `nextRunAtMs` never lies in the past. -/
theorem computeNextRun_future (oracle : CronOracle) (now : Int)
    (schedule : CronSchedule) (h : ScheduleFuture oracle now schedule) :
    now < computeNextRun oracle now schedule := by
  cases schedule with
  | «at» atMs =>
      by_cases hgt : atMs > now
      · simp [computeNextRun, hgt]
      · simp only [computeNextRun, if_neg hgt]
        omega
  | every everyMs anchorMs =>
      have hpos : 0 < everyMs := h
      simp only [computeNextRun]
      have hlt : now - anchorMs.getD now <
          ((now - anchorMs.getD now).fdiv everyMs + 1) * everyMs :=
        Int.lt_fdiv_add_one_mul_self _ hpos
      omega
  | cron expr tz =>
      have hnone : oracle expr tz now = none := h
      simp only [computeNextRun, parseNextCron, hnone]
      omega

/-- Witness for C9 at concrete inputs. -/
theorem computeNextRun_future_witness :
    (7 : Int) < computeNextRun (fun _ _ _ => none) 7
      (CronSchedule.every 5 (some 3)) :=
  computeNextRun_future (fun _ _ _ => none) 7
    (CronSchedule.every 5 (some 3)) (show (0 : Int) < 5 by decide)

/-- Replacing a job by a mutated version with the same id leaves the list
of job ids unchanged. -/
theorem map_id_replaceById (l : List CronJob) (j : CronJob) :
    (replaceById l j).map CronJob.id = l.map CronJob.id := by
  induction l with
  | nil => rfl
  | cons x rest ih =>
      simp only [replaceById, List.map_cons, List.map_map] at ih ⊢
      by_cases hx : x.id = j.id
      · simp [hx, ih]
      · simp [hx, ih]

/-- When the job ids are distinct, removing the first job with a given id
removes that id from the list entirely. -/
theorem id_not_mem_removeFirstById {l : List CronJob} {i : String}
    (h : (l.map CronJob.id).Nodup) :
    i ∉ (removeFirstById l i).map CronJob.id := by
  induction l with
  | nil => simp [removeFirstById]
  | cons j rest ih =>
      simp only [List.map_cons, List.nodup_cons] at h
      by_cases hj : j.id = i
      · simpa [removeFirstById, hj] using fun hmem => h.1 (hj ▸ hmem)
      · intro hmem
        simp only [removeFirstById, if_neg hj, List.map_cons,
          List.mem_cons] at hmem
        rcases hmem with hmem | hmem
        · exact hj hmem.symm
        · exact ih h.2 hmem

/-- Oracle for concrete evaluations: every cron expression fails to parse. -/
def cronOracle0 : CronOracle := fun _ _ _ => none

/-- Concrete one-shot job used in the C1 counterexample. -/
def cronJob0 : CronJob :=
  { id := "job-1"
    name := "one-shot"
    enabled := true
    deleteAfterRun := true
    createdAtMs := 0
    updatedAtMs := 0
    schedule := .at 50
    payload := .systemEvent "tick"
    state := { nextRunAtMs := some 50 } }

/-- Concrete running service holding `cronJob0` with an armed timer. -/
def cronState0 : ServiceState :=
  { jobs := [cronJob0], timers := ["job-1"], running := true }

/-- Counterexample to C1: a `deleteAfterRun` job whose `executeJob` callback
throws is NOT removed — after a forced `run` that fails, the job is still in
the job list (hence in `list({includeDisabled: true})`) and its timer has
been re-armed. -/
theorem cron_deleteAfterRun_counterexample :
    cronJob0.deleteAfterRun = true ∧
    (run cronOracle0 100 100 100 100 cronState0 "job-1" RunMode.force
        (Except.error "LLM failure")).2.jobs.map CronJob.id = ["job-1"] ∧
    (listJobs (run cronOracle0 100 100 100 100 cronState0 "job-1"
        RunMode.force (Except.error "LLM failure")).2 true).map CronJob.id
      = ["job-1"] ∧
    (run cronOracle0 100 100 100 100 cronState0 "job-1" RunMode.force
        (Except.error "LLM failure")).2.timers = ["job-1"] := by
  decide

/-- C1 (amended): a `deleteAfterRun` job is removed from the job list, its
timer cancelled, and it no longer appears in `list({includeDisabled: true})`
after an execution in which the `executeJob` callback SUCCEEDS; when the
callback throws, the job instead remains in the job list and still appears
in `list({includeDisabled: true})` (re-armed when the service is running and
the job enabled). -/
theorem cron_deleteAfterRun_amended (oracle : CronOracle) (t0 t1 t2 : Int)
    (j : CronJob) (s : ServiceState) (hdel : j.deleteAfterRun = true)
    (hnodup : (s.jobs.map CronJob.id).Nodup) :
    (∀ result,
      j.id ∉ ((executeJob oracle t0 t1 t2 j (.ok result) s).2.jobs.map
          CronJob.id) ∧
      j.id ∉ (executeJob oracle t0 t1 t2 j (.ok result) s).2.timers ∧
      j.id ∉ ((listJobs (executeJob oracle t0 t1 t2 j (.ok result) s).2
          true).map CronJob.id)) ∧
    (∀ message, j ∈ s.jobs →
      j.id ∈ ((executeJob oracle t0 t1 t2 j (.error message) s).2.jobs.map
          CronJob.id) ∧
      j.id ∈ ((listJobs (executeJob oracle t0 t1 t2 j (.error message)
          s).2 true).map CronJob.id)) := by
  constructor
  · intro result
    have hjobs : (executeJob oracle t0 t1 t2 j (.ok result) s).2.jobs
        = removeFirstById (replaceById s.jobs { j with state :=
            { j.state with
                lastRunAtMs := some t0
                lastDurationMs := some (t1 - t0)
                lastStatus := some .ok
                lastError := none
                runningAtMs := none
                nextRunAtMs := some (computeNextRun oracle t2 j.schedule) } })
            j.id := by
      simp [executeJob, hdel, cancelJobTimer]
    have hnodup' : ((replaceById s.jobs
        { j with state := { j.state with
            lastRunAtMs := some t0
            lastDurationMs := some (t1 - t0)
            lastStatus := some .ok
            lastError := none
            runningAtMs := none
            nextRunAtMs := some (computeNextRun oracle t2 j.schedule) } }).map
        CronJob.id).Nodup := by
      rw [map_id_replaceById]; exact hnodup
    refine ⟨?_, ?_, ?_⟩
    · rw [hjobs]; exact id_not_mem_removeFirstById hnodup'
    · simp [executeJob, hdel, cancelJobTimer]
    · rw [show ∀ st : ServiceState, listJobs st true = st.jobs from
        fun _ => rfl, hjobs]
      exact id_not_mem_removeFirstById hnodup'
  · intro message hmem
    have hid : j.id ∈ s.jobs.map CronJob.id := List.mem_map_of_mem _ hmem
    have hjobs : (executeJob oracle t0 t1 t2 j (.error message) s).2.jobs
        = replaceById s.jobs { j with state := { j.state with
            lastRunAtMs := some t0
            lastDurationMs := some (t1 - t0)
            lastStatus := some .error
            lastError := some message
            runningAtMs := none
            nextRunAtMs := some (computeNextRun oracle t2 j.schedule) } } := by
      by_cases hre : s.running && j.enabled
      · simp [executeJob, hre, scheduleJob, cancelJobTimer]
      · simp [executeJob, hre]
    constructor
    · rw [hjobs, map_id_replaceById]; exact hid
    · rw [show ∀ st : ServiceState, listJobs st true = st.jobs from
        fun _ => rfl, hjobs, map_id_replaceById]
      exact hid

/-- Witness for the amended C1 at concrete inputs: the successful path
deletes `cronJob0` and cancels its timer. -/
theorem cron_deleteAfterRun_amended_witness :
    ("job-1" : String) ∉
      ((executeJob cronOracle0 100 100 100 cronJob0 (.ok (some "done"))
          cronState0).2.jobs.map CronJob.id) ∧
    ("job-1" : String) ∉
      (executeJob cronOracle0 100 100 100 cronJob0 (.ok (some "done"))
          cronState0).2.timers := by
  have h := cron_deleteAfterRun_amended cronOracle0 100 100 100 cronJob0
    cronState0 (by decide) (by decide)
  exact ⟨(h.1 (some "done")).1, (h.1 (some "done")).2.1⟩

end Cron

namespace Bus

/-- An inbound message, from `InboundMessage` in `src/bus.ts`. -/
structure InboundMessage where
  channel : String
  chatId : String
  content : String
  threadId : Option String := none
deriving Repr, DecidableEq

/-- Inbound-side state of a `MessageBus` (`src/bus.ts`): the FIFO `queue` of
messages awaiting a consumer and the FIFO `resolvers` of waiters (one-shot
continuations, modelled by opaque waiter tokens) awaiting a message. -/
structure BusState where
  queue : List InboundMessage
  resolvers : List Nat
deriving Repr, DecidableEq

/-- The freshly constructed bus. -/
def busEmpty : BusState := { queue := [], resolvers := [] }

/-- From `MessageBus.publishInbound`: when a waiter exists, shift the head
waiter and hand it the message (returned as `some (waiter, msg)`); otherwise
push the message onto the queue. -/
def publishInbound (b : BusState) (m : InboundMessage) :
    BusState × Option (Nat × InboundMessage) :=
  match b.resolvers with
  | w :: rest => ({ b with resolvers := rest }, some (w, m))
  | [] => ({ b with queue := b.queue ++ [m] }, none)

/-- From `MessageBus.consumeInbound`: when the queue is non-empty, shift and
return its head; otherwise register the calling waiter at the back of the
resolver FIFO (returning `none`, the pending promise). -/
def consumeInbound (b : BusState) (w : Nat) :
    BusState × Option InboundMessage :=
  match b.queue with
  | m :: rest => ({ b with queue := rest }, some m)
  | [] => ({ b with resolvers := b.resolvers ++ [w] }, none)

/-- Publish a batch of messages in order. -/
def publishAll (b : BusState) (ms : List InboundMessage) : BusState :=
  ms.foldl (fun b' m => (publishInbound b' m).1) b

/-- Perform `n` successive `consumeInbound` calls, collecting the messages
returned immediately. -/
def consumeMany : BusState → Nat → BusState × List InboundMessage
  | b, 0 => (b, [])
  | b, n + 1 =>
      match consumeInbound b 0 with
      | (b', some m) =>
          let r := consumeMany b' n
          (r.1, m :: r.2)
      | (b', none) => (consumeMany b' n)

/-- Publishing into a bus with no waiters only ever appends to the queue. -/
theorem publishAll_no_resolvers (ms : List InboundMessage) :
    ∀ q : List InboundMessage,
      publishAll { queue := q, resolvers := [] } ms
        = { queue := q ++ ms, resolvers := [] } := by
  induction ms with
  | nil => intro q; simp [publishAll]
  | cons m rest ih =>
      intro q
      have step : (publishInbound { queue := q, resolvers := [] } m).1
          = { queue := q ++ [m], resolvers := [] } := rfl
      calc publishAll { queue := q, resolvers := [] } (m :: rest)
          = publishAll { queue := q ++ [m], resolvers := [] } rest := by
            simp [publishAll, List.foldl_cons, step]
        _ = { queue := (q ++ [m]) ++ rest, resolvers := [] } := ih _
        _ = { queue := q ++ (m :: rest), resolvers := [] } := by simp

/-- Consuming exactly as many messages as are queued drains the queue in
order. -/
theorem consumeMany_drains (ms : List InboundMessage) :
    ∀ r : List Nat,
      consumeMany { queue := ms, resolvers := r } ms.length
        = ({ queue := [], resolvers := r }, ms) := by
  induction ms with
  | nil => intro r; simp [consumeMany]
  | cons m rest ih =>
      intro r
      simp [consumeMany, consumeInbound, ih r]

/-- C8: on the inbound side of the message bus, `publishInbound` hands the
message to the longest-waiting (head) registered waiter when one exists,
removing exactly that waiter, and otherwise appends the message to the
queue; consequently, publishing `N` messages into an idle bus and then
making `N` `consumeInbound` calls returns exactly those messages, one per
call, in enqueue order, leaving the bus empty. -/
theorem bus_inbound_fifo (b : BusState) (m : InboundMessage)
    (ms : List InboundMessage) :
    (b.resolvers = [] →
       publishInbound b m = ({ b with queue := b.queue ++ [m] }, none)) ∧
    (∀ w rest, b.resolvers = w :: rest →
       publishInbound b m = ({ b with resolvers := rest }, some (w, m))) ∧
    consumeMany (publishAll busEmpty ms) ms.length
      = (busEmpty, ms) := by
  refine ⟨?_, ?_, ?_⟩
  · intro h
    simp [publishInbound, h]
  · intro w rest h
    simp [publishInbound, h]
  · have h1 : publishAll busEmpty ms
        = { queue := ms, resolvers := [] } := by
      simpa [busEmpty] using publishAll_no_resolvers ms []
    rw [h1, consumeMany_drains ms []]
    rfl

/-- Witness for C8 at concrete inputs: a publish with two registered waiters
delivers to the head waiter, and a two-message publish-then-consume round
trip returns both messages in order. -/
theorem bus_inbound_fifo_witness :
    publishInbound { queue := [], resolvers := [7, 8] }
        { channel := "cli", chatId := "main", content := "hi" }
      = ({ queue := [], resolvers := [8] },
         some (7, { channel := "cli", chatId := "main", content := "hi" })) ∧
    consumeMany (publishAll busEmpty
        [{ channel := "cli", chatId := "main", content := "a" },
         { channel := "cli", chatId := "main", content := "b" }]) 2
      = (busEmpty,
         [{ channel := "cli", chatId := "main", content := "a" },
          { channel := "cli", chatId := "main", content := "b" }]) := by
  constructor
  · exact (bus_inbound_fifo { queue := [], resolvers := [7, 8] }
      { channel := "cli", chatId := "main", content := "hi" } []).2.1 7 [8] rfl
  · exact (bus_inbound_fifo busEmpty
      { channel := "cli", chatId := "main", content := "hi" }
      [{ channel := "cli", chatId := "main", content := "a" },
       { channel := "cli", chatId := "main", content := "b" }]).2.2

end Bus

namespace Subagent

/-- An outbound message, from `OutboundMessage` in `src/bus.ts`. -/
structure OutboundMessage where
  channel : String
  chatId : String
  content : String
deriving Repr, DecidableEq

/-- Subagent status, from `SubagentStatus` in `src/subagent.ts`. -/
inductive SubagentStatus where
  | running
  | completed
  | failed
deriving Repr, DecidableEq

/-- Execution stats, from the `stats` field of `Subagent`. -/
structure SubStats where
  runtimeMs : Int
  tokensIn : Option Int := none
  tokensOut : Option Int := none
deriving Repr, DecidableEq

/-- A subagent record, from the `Subagent` type in `src/subagent.ts`.  The
optional `AbortController` is modelled as `some aborted?` when present. -/
structure SubagentRec where
  id : String
  task : String
  label : Option String := none
  status : SubagentStatus
  createdAt : Int
  completedAt : Option Int := none
  result : Option String := none
  error : Option String := none
  sessionKey : String
  requesterChannel : String
  requesterChatId : String
  stats : Option SubStats := none
  abortController : Option Bool := none
deriving Repr, DecidableEq

/-- State of a `SubagentManager`: the id-keyed record map and the outbound
announcements it has published on the bus. -/
structure ManagerState where
  subagents : List (String × SubagentRec)
  currentChannel : String
  currentChatId : String
  announcements : List OutboundMessage
deriving Repr, DecidableEq

/-- Lookup in the `subagents` map. -/
def lookupSubagent (st : ManagerState) (id : String) : Option SubagentRec :=
  (st.subagents.find? (fun p => p.1 = id)).map Prod.snd

/-- Overwrite the record stored under an id (in-place mutation of the map
entry in the source). -/
def updateSubagent (l : List (String × SubagentRec)) (id : String)
    (sa : SubagentRec) : List (String × SubagentRec) :=
  l.map (fun p => if p.1 = id then (p.1, sa) else p)

/-- JS `Math.round(a / b)` on the idealized integers, for positive `b`:
round half toward positive infinity, i.e. `floor(a / b + 1 / 2)`. -/
def jsRoundDiv (a b : Int) : Int := Int.fdiv (2 * a + b) (2 * b)

/-- Runtime formatting from `SubagentManager.announceResult`. -/
def runtimeStr (runtimeMs : Int) : String :=
  if runtimeMs > 60000 then
    toString (jsRoundDiv runtimeMs 60000) ++ "m"
      ++ toString (jsRoundDiv (runtimeMs % 60000) 1000) ++ "s"
  else
    toString (jsRoundDiv runtimeMs 1000) ++ "s"

/-- JS template interpolation of a possibly-undefined string. -/
def optToStr : Option String → String
  | some s => s
  | none => "undefined"

/-- Label rendering from `announceResult`: a JS-truthy label becomes
a quoted suffix, an absent (or empty, hence falsy) one nothing. -/
def labelStr (label : Option String) : String :=
  match label with
  | some l => if l = "" then "" else " \"" ++ l ++ "\""
  | none => ""

/-- From `SubagentManager.announceResult` (`src/subagent.ts`): build the
announcement published to the requester's channel. -/
def announceMsg (sa : SubagentRec) (outcome : String) : OutboundMessage :=
  let runtimeMs := match sa.stats with
    | some st => st.runtimeMs
    | none => 0
  let statsLine :=
    "runtime " ++ runtimeStr runtimeMs ++ " | session " ++ sa.sessionKey
  let header := "[Subagent " ++ sa.id ++ labelStr sa.label ++ " "
    ++ outcome ++ "]"
  let content :=
    match sa.status with
    | .completed =>
        header ++ "\n\nFindings:\n" ++ optToStr sa.result
          ++ "\n\nStats: " ++ statsLine
    | .failed =>
        header ++ "\n\nError: " ++ optToStr sa.error
          ++ "\n\nStats: " ++ statsLine
    | .running => header ++ "\n\nStats: " ++ statsLine
  { channel := sa.requesterChannel
    chatId := sa.requesterChatId
    content := content }

/-- The record produced by `stop` on a running subagent: abort signalled,
marked completed at `now` with the fixed result text and a stats block. -/
def stoppedRecord (now : Int) (sa : SubagentRec) : SubagentRec :=
  { sa with
      abortController := sa.abortController.map (fun _ => true)
      status := .completed
      completedAt := some now
      result := some "Stopped by request"
      stats := some { runtimeMs := now - sa.createdAt } }

/-- From `SubagentManager.stop` (`src/subagent.ts`, lines 163-181): `false`
without any effect when the id is unknown or the subagent is not running;
otherwise mark stopped, announce, and return `true`. -/
def stop (now : Int) (st : ManagerState) (id : String) :
    Bool × ManagerState :=
  match lookupSubagent st id with
  | none => (false, st)
  | some sa =>
      if sa.status ≠ .running then (false, st)
      else
        let sa' := stoppedRecord now sa
        (true,
          { st with
              subagents := updateSubagent st.subagents id sa'
              announcements := st.announcements
                ++ [announceMsg sa' "stopped"] })

/-- C10: `SubagentManager.stop(id)` is atomic on failure — when the id is
unknown or the addressed subagent is not running it returns `false` and
leaves the whole manager state (every record and the announcement log)
unchanged; when the subagent is running it returns `true`, overwrites
exactly that record with the completed "Stopped by request" record carrying
a stats block, and appends exactly one announcement addressed to the
requester. -/
theorem subagent_stop_atomic (now : Int) (st : ManagerState) (id : String) :
    (lookupSubagent st id = none → stop now st id = (false, st)) ∧
    (∀ sa, lookupSubagent st id = some sa → sa.status ≠ .running →
       stop now st id = (false, st)) ∧
    (∀ sa, lookupSubagent st id = some sa → sa.status = .running →
       stop now st id = (true,
         { st with
             subagents := updateSubagent st.subagents id
               (stoppedRecord now sa)
             announcements := st.announcements
               ++ [announceMsg (stoppedRecord now sa) "stopped"] })) := by
  refine ⟨?_, ?_, ?_⟩
  · intro h; simp [stop, h]
  · intro sa h hs; simp [stop, h, hs]
  · intro sa h hs; simp [stop, h, hs]

/-- Concrete manager state used in the C10 witness: one running and one
already-completed subagent. -/
def managerState0 : ManagerState :=
  { subagents :=
      [("aaaa1111",
        { id := "aaaa1111", task := "scan", status := .running,
          createdAt := 1000, sessionKey := "subagent:main:aaaa1111",
          requesterChannel := "cli", requesterChatId := "main" }),
       ("bbbb2222",
        { id := "bbbb2222", task := "sum", status := .completed,
          createdAt := 500, completedAt := some 900,
          result := some "ok", sessionKey := "subagent:main:bbbb2222",
          requesterChannel := "cli", requesterChatId := "main" })]
    currentChannel := "cli"
    currentChatId := "main"
    announcements := [] }

/-- Witness for C10 at concrete inputs: stopping an unknown id and a
non-running subagent both leave `managerState0` unchanged, and stopping the
running one returns `true`. -/
theorem subagent_stop_atomic_witness :
    stop 2000 managerState0 "nope" = (false, managerState0) ∧
    stop 2000 managerState0 "bbbb2222" = (false, managerState0) ∧
    (stop 2000 managerState0 "aaaa1111").1 = true := by
  refine ⟨?_, ?_, ?_⟩
  · exact (subagent_stop_atomic 2000 managerState0 "nope").1 (by decide)
  · exact (subagent_stop_atomic 2000 managerState0 "bbbb2222").2.1
      { id := "bbbb2222", task := "sum", status := .completed,
        createdAt := 500, completedAt := some 900,
        result := some "ok", sessionKey := "subagent:main:bbbb2222",
        requesterChannel := "cli", requesterChatId := "main" }
      (by decide) (by decide)
  · have h := (subagent_stop_atomic 2000 managerState0 "aaaa1111").2.2
      { id := "aaaa1111", task := "scan", status := .running,
        createdAt := 1000, sessionKey := "subagent:main:aaaa1111",
        requesterChannel := "cli", requesterChatId := "main" }
      (by decide) (by decide)
    rw [h]

end Subagent

namespace Backend

/-- Agent status, from `AgentInfo` in `src/sdk/types.ts`. -/
inductive AgentStatus where
  | running
  | stopped
deriving Repr, DecidableEq

/-- Environment a single agent directory presents to the reconciliation
loop of `LocalBackend.loadExistingAgents` (`src/sdk/local-backend.ts`):
the port recorded in `meta.json`, the parsed `server.pid` content (`none`
when the file is missing or unreadable), whether `process.kill(pid, 0)`
succeeds, and whether `GET /health` on a port returns an ok response. -/
structure ReconcileEnv where
  metaPort : Int
  pidFile : Option Int
  alive : Int → Bool
  healthOk : Int → Bool

/-- Result of reconciling one agent directory: the reconstructed record
fields and whether `server.pid` was unlinked. -/
structure ReconcileOutcome where
  status : AgentStatus
  port : Option Int
  pid : Option Int
  pidFileRemoved : Bool
deriving Repr, DecidableEq

/-- From `LocalBackend.loadExistingAgents` (`src/sdk/local-backend.ts`,
lines 51-123), the per-agent liveness reconciliation: reading `server.pid`
and a failing `process.kill(pid, 0)` both land in the outer catch, which
unlinks `server.pid` (a no-op when absent); a failing `/health` probe is
caught by the INNER handler, which only clears `isRunning`.  The record
gets `port`/`pid` only while running. -/
def reconcileAgent (env : ReconcileEnv) : ReconcileOutcome :=
  match env.pidFile with
  | none =>
      { status := .stopped, port := none, pid := none,
        pidFileRemoved := false }
  | some pid =>
      if env.alive pid then
        let ok := env.healthOk env.metaPort
        { status := if ok then .running else .stopped
          port := if ok then some env.metaPort else none
          pid := if ok then some pid else none
          pidFileRemoved := false }
      else
        { status := .stopped, port := none, pid := none,
          pidFileRemoved := true }

/-- Concrete environment for the C4 counterexample: `server.pid` holds a
live pid but the server no longer answers `/health`. -/
def reconcileEnv0 : ReconcileEnv :=
  { metaPort := 9001
    pidFile := some 42
    alive := fun _ => true
    healthOk := fun _ => false }

/-- Counterexample to C4: with a live pid whose `/health` check fails, the
agent is marked stopped but `server.pid` is NOT erased — erasure happens
only on the signal-0 / unreadable-pid-file path, contradicting the claim
that either failing check erases the file. -/
theorem backend_reconcile_counterexample :
    reconcileEnv0.pidFile = some 42 ∧
    reconcileEnv0.alive 42 = true ∧
    reconcileEnv0.healthOk reconcileEnv0.metaPort = false ∧
    (reconcileAgent reconcileEnv0).status = .stopped ∧
    (reconcileAgent reconcileEnv0).pidFileRemoved = false := by
  decide

/-- C4 (amended): during supervisor `init()` reconciliation, for each agent
directory with `meta.json`: the agent is marked running exactly when
`server.pid` holds a pid that is alive under signal 0 AND `/health` at the
stored port answers ok; `server.pid` is erased exactly when it exists but
its pid fails the signal-0 check; when the process is alive but the health
check fails, the agent is marked stopped with port and pid cleared while
`server.pid` is left in place; a running agent keeps the stored port and
pid. -/
theorem backend_reconcile_amended (env : ReconcileEnv) :
    ((reconcileAgent env).status = .running ↔
       ∃ p, env.pidFile = some p ∧ env.alive p = true ∧
         env.healthOk env.metaPort = true) ∧
    ((reconcileAgent env).pidFileRemoved = true ↔
       ∃ p, env.pidFile = some p ∧ env.alive p = false) ∧
    ((reconcileAgent env).status = .stopped →
       (reconcileAgent env).port = none ∧ (reconcileAgent env).pid = none) ∧
    ((reconcileAgent env).status = .running →
       (reconcileAgent env).port = some env.metaPort ∧
       ∃ p, env.pidFile = some p ∧ (reconcileAgent env).pid = some p) := by
  cases hpid : env.pidFile with
  | none => simp [reconcileAgent, hpid]
  | some p =>
      by_cases halive : env.alive p
      · by_cases hok : env.healthOk env.metaPort
        · simp [reconcileAgent, hpid, halive, hok]
        · simp [reconcileAgent, hpid, halive, hok]
      · simp [reconcileAgent, hpid, halive]

/-- Witness for the amended C4 at the concrete environment: a stopped agent
has its port and pid cleared. -/
theorem backend_reconcile_amended_witness :
    (reconcileAgent reconcileEnv0).port = none ∧
    (reconcileAgent reconcileEnv0).pid = none :=
  (backend_reconcile_amended reconcileEnv0).2.2.1 (by decide)

end Backend

namespace Memory

/-- A memory entry, from `MemoryEntry` in `src/memory/types.ts` (the opaque
`embedding`/`metadata` extension fields play no role in search and are
omitted). -/
structure MemoryEntry where
  id : String
  createdAt : Int
  content : String
  importance : Rat
  tags : Option (List String) := none
  sessionId : Option String := none
  source : Option String := none
deriving Repr, DecidableEq

/-- From `FileMemoryProvider.search` (`src/memory/file-provider.ts`, lines
126-131): the session-scope filter.  The guard is the JS truthiness of
`opts.sessionId`, and an entry passes when its own `sessionId` is falsy
(`!e.sessionId`) or strictly equal to the supplied one. -/
def sessionFilter (sid : Option String) (entries : List MemoryEntry) :
    List MemoryEntry :=
  if jsTruthyStr sid then
    entries.filter (fun e => !(jsTruthyStr e.sessionId) || e.sessionId == sid)
  else entries

/-- From `FileMemoryProvider.search` (lines 134-139): the tag filter, keyed
on a non-empty `opts.tags`, keeping entries one of whose tags matches
case-insensitively (an entry without tags is dropped, `e.tags?.some(...)`
being undefined and hence falsy). -/
def tagFilter (tags : Option (List String)) (entries : List MemoryEntry) :
    List MemoryEntry :=
  match tags with
  | none => entries
  | some ts =>
      if ts.length > 0 then
        entries.filter (fun e =>
          match e.tags with
          | some ets =>
              ets.any (fun t => (ts.map strToLower).contains (strToLower t))
          | none => false)
      else entries

/-- The candidate set of `search` before scoring: the session filter then
the tag filter, exactly as the source composes them. -/
def searchCandidates (sid : Option String) (tags : Option (List String))
    (entries : List MemoryEntry) : List MemoryEntry :=
  tagFilter tags (sessionFilter sid entries)

/-- Boolean form of the tag-filter predicate. -/
def tagKeep (tags : Option (List String)) (e : MemoryEntry) : Bool :=
  match tags with
  | none => true
  | some ts =>
      if ts.length > 0 then
        match e.tags with
        | some ets =>
            ets.any (fun t => (ts.map strToLower).contains (strToLower t))
        | none => false
      else true

/-- Membership in the session filter, characterized. -/
theorem mem_sessionFilter (sid : Option String) (entries : List MemoryEntry)
    (e : MemoryEntry) :
    e ∈ sessionFilter sid entries ↔
      e ∈ entries ∧
        (sid = none ∨ sid = some "" ∨ e.sessionId = none ∨
          e.sessionId = some "" ∨ e.sessionId = sid) := by
  cases sid with
  | none => simp [sessionFilter, jsTruthyStr]
  | some s =>
      by_cases hs : s = ""
      · subst hs
        simp [sessionFilter, jsTruthyStr]
      · have htruthy : jsTruthyStr (some s) = true := by
          simp [jsTruthyStr, hs]
        simp only [sessionFilter, htruthy, if_pos, List.mem_filter]
        constructor
        · rintro ⟨hmem, hcond⟩
          refine ⟨hmem, ?_⟩
          cases hsid : e.sessionId with
          | none => tauto
          | some v =>
              simp only [hsid, jsTruthyStr, Bool.or_eq_true,
                Bool.not_eq_true', bne_eq_false_iff_eq, beq_iff_eq,
                Option.some.injEq] at hcond
              rcases hcond with hv | hv
              · tauto
              · subst hv; tauto
        · rintro ⟨hmem, hcond⟩
          refine ⟨hmem, ?_⟩
          rcases hcond with h | h | h | h | h
          · exact absurd h (by simp)
          · exact absurd h (by simp [hs])
          · simp [jsTruthyStr, h]
          · simp [jsTruthyStr, h]
          · simp [h]

/-- Membership in the tag filter, characterized. -/
theorem mem_tagFilter (tags : Option (List String))
    (entries : List MemoryEntry) (e : MemoryEntry) :
    e ∈ tagFilter tags entries ↔ e ∈ entries ∧ tagKeep tags e = true := by
  cases tags with
  | none => simp [tagFilter, tagKeep]
  | some ts =>
      by_cases hlen : ts.length > 0
      · simp only [tagFilter, tagKeep, if_pos hlen, List.mem_filter]
      · simp [tagFilter, tagKeep, hlen]

/-- C6 (amended): the candidate set of memory search keeps exactly the
entries that pass the tag filter and whose session scope matches under JS
truthiness: an entry is kept iff the supplied `sessionId` is absent or
empty, or the entry's `sessionId` is absent or empty (global under
truthiness), or the two ids are equal.  In particular, for a supplied
non-empty id, truthy-global entries are always kept and an entry with
non-empty `sessionId` s is kept iff the supplied id equals s. -/
theorem memory_scope_amended (sid : Option String)
    (tags : Option (List String)) (entries : List MemoryEntry)
    (e : MemoryEntry) :
    e ∈ searchCandidates sid tags entries ↔
      e ∈ entries ∧
        (sid = none ∨ sid = some "" ∨ e.sessionId = none ∨
          e.sessionId = some "" ∨ e.sessionId = sid) ∧
        tagKeep tags e = true := by
  rw [searchCandidates, mem_tagFilter, mem_sessionFilter]
  tauto

/-- Concrete session-scoped entry for the C6 counterexample. -/
def memEntry0 : MemoryEntry :=
  { id := "e1", createdAt := 0, content := "note", importance := 1,
    sessionId := some "x" }

/-- Counterexample to C6: supplying the EMPTY session id (falsy in JS)
skips the session filter entirely, so the entry scoped to session "x" is
returned even though its sessionId is neither absent nor equal to the
supplied id — the claim's "returned iff s' = s" fails at s' = "". -/
theorem memory_scope_counterexample :
    searchCandidates (some "") none [memEntry0] = [memEntry0] ∧
    memEntry0.sessionId = some "x" ∧ some "x" ≠ some "" := by
  refine ⟨?_, rfl, by decide⟩
  rfl

end Memory

namespace SessionKey

/-- Whitespace trimmed by JS `String.prototype.trim` (the common set:
ASCII whitespace, NBSP, BOM and the Unicode line separators). -/
def isWsChar (c : Char) : Bool :=
  decide (c.toNat = 32 ∨ c.toNat = 9 ∨ c.toNat = 10 ∨ c.toNat = 11 ∨
    c.toNat = 12 ∨ c.toNat = 13 ∨ c.toNat = 160 ∨ c.toNat = 65279 ∨
    c.toNat = 8232 ∨ c.toNat = 8233)

/-- JS `value.trim()` on a character list: drop whitespace from both ends. -/
def trimChars (s : List Char) : List Char :=
  ((s.dropWhile isWsChar).reverse.dropWhile isWsChar).reverse

/-- JS `value.toLowerCase()` on a character list (ASCII range). -/
def lowerChars (s : List Char) : List Char := s.map toLowerChar

/-- Membership in the character class `[a-z0-9_-]` of the `normalize` regex
in `src/session-key.ts`. -/
def isAllowedChar (c : Char) : Bool :=
  decide ((97 ≤ c.toNat ∧ c.toNat ≤ 122) ∨ (48 ≤ c.toNat ∧ c.toNat ≤ 57) ∨
    c.toNat = 95 ∨ c.toNat = 45)

/-- From `normalize` in `src/session-key.ts`:
`value.trim().toLowerCase().replace(/[^a-z0-9_-]/g, "-")`. -/
def normalizeChars (s : List Char) : List Char :=
  (lowerChars (trimChars s)).map (fun c => if isAllowedChar c then c else '-')

/-- Session-key parts, from `SessionKeyParts` in `src/session-key.ts`
(strings as character lists). -/
structure SessionKeyParts where
  channel : List Char
  chatId : List Char
  threadId : Option (List Char) := none
deriving Repr, DecidableEq

/-- The literal `":thread:"` marker. -/
def threadMarker : List Char := ":thread:".data

/-- From `buildSessionKey` in `src/session-key.ts`; the `if (parts.threadId)`
JS-truthiness guard skips an absent or empty thread id. -/
def buildSessionKey (p : SessionKeyParts) : List Char :=
  let base := normalizeChars p.channel ++ ':' :: normalizeChars p.chatId
  match p.threadId with
  | some t =>
      if t = [] then base else base ++ threadMarker ++ normalizeChars t
  | none => base

/-- Split a list at the FIRST occurrence of the marker `m` (the semantics of
`indexOf` plus two `slice` calls): `some (before, after)` with the marker
removed, `none` when the marker does not occur. -/
def splitFirst (m : List Char) : List Char → Option (List Char × List Char)
  | [] => none
  | c :: rest =>
      if (c :: rest).take m.length = m then
        some ([], (c :: rest).drop m.length)
      else
        match splitFirst m rest with
        | some (pre, post) => some (c :: pre, post)
        | none => none

/-- From `parseBaseKey` in `src/session-key.ts`: split at the first `":"`;
`indexOf <= 0` (no colon, or a leading colon giving an empty channel)
rejects, as does an empty chat id. -/
def parseBaseKey (key : List Char) : Option (List Char × List Char) :=
  match splitFirst [':'] key with
  | none => none
  | some (channel, chatId) =>
      if channel = [] then none
      else if chatId = [] then none
      else some (channel, chatId)

/-- From `parseSessionKey` in `src/session-key.ts`: trim and lowercase, then
split at the first `":thread:"` when it occurs at a positive index
(`threadIdx > 0`); a marker at index 0 falls through to `parseBaseKey` on
the whole string (which then rejects the leading colon). -/
def parseSessionKey (sessionKey : List Char) : Option SessionKeyParts :=
  let trimmed := lowerChars (trimChars sessionKey)
  if trimmed = [] then none
  else
    match splitFirst threadMarker trimmed with
    | some (base, threadId) =>
        if base ≠ [] then
          match parseBaseKey base with
          | none => none
          | some cd => some ⟨cd.1, cd.2, some threadId⟩
        else
          (parseBaseKey trimmed).map (fun cd => ⟨cd.1, cd.2, none⟩)
    | none => (parseBaseKey trimmed).map (fun cd => ⟨cd.1, cd.2, none⟩)

/-- Componentwise normalization of parts, following the claim's words: each
component trimmed, lowercased and with disallowed characters replaced, the
thread id included when present and non-empty. -/
def specNormalizeParts (p : SessionKeyParts) : SessionKeyParts :=
  { channel := normalizeChars p.channel
    chatId := normalizeChars p.chatId
    threadId :=
      match p.threadId with
      | some t => if t = [] then none else some (normalizeChars t)
      | none => none }

/-- Concrete parts whose chat id normalizes to the literal `"thread"`. -/
def sessionParts0 : SessionKeyParts :=
  { channel := "a".data, chatId := "thread".data,
    threadId := some "x".data }

/-- Counterexample to C3: for channel `"a"`, chatId `"thread"` and threadId
`"x"` — all non-empty — the built key is `"a:thread:thread:x"`, whose FIRST
`":thread:"` occurrence is at index 1, so parsing takes `"a"` as the base
key, which has no colon and is rejected: the round trip returns `none`
instead of the normalized parts. -/
theorem sessionKey_roundtrip_counterexample :
    parseSessionKey (buildSessionKey sessionParts0) = none ∧
    sessionParts0.channel ≠ [] ∧ sessionParts0.chatId ≠ [] ∧
    sessionParts0.threadId = some "x".data ∧ "x".data ≠ ([] : List Char) := by
  refine ⟨by decide, by decide, by decide, rfl, by decide⟩

/-- The literal `"thread"` as a character list. -/
def thr : List Char := "thread".data

/-- The literal `"thread:"` as a character list. -/
def thc : List Char := "thread:".data

/-- Unfolding of the marker as a cons cell. -/
theorem threadMarker_eq : threadMarker = ':' :: thc := rfl

/-- Characters of a normalized component lie in the allowed class. -/
theorem allowed_of_mem_normalize {c : Char} {s : List Char}
    (h : c ∈ normalizeChars s) : isAllowedChar c = true := by
  rcases List.mem_map.mp h with ⟨x, _, hx⟩
  subst hx
  by_cases hax : isAllowedChar x = true
  · simp [hax]
  · simp only [Bool.not_eq_true] at hax
    have hdash : isAllowedChar '-' = true := by decide
    simpa [hax] using hdash

/-- Allowed characters are not the colon. -/
theorem allowed_ne_colon {c : Char} (h : isAllowedChar c = true) :
    c ≠ ':' := by
  intro hc; subst hc; exact absurd h (by decide)

/-- A normalized component never contains a colon. -/
theorem not_colon_mem_normalize (s : List Char) :
    ':' ∉ normalizeChars s := fun hmem =>
  allowed_ne_colon (allowed_of_mem_normalize hmem) rfl

/-- Allowed characters are not whitespace. -/
theorem allowed_not_ws {c : Char} (h : isAllowedChar c = true) :
    isWsChar c = false := by
  simp only [isAllowedChar, decide_eq_true_eq] at h
  simp only [isWsChar, decide_eq_false_iff_not]
  omega

/-- Allowed characters are lowercase-stable. -/
theorem allowed_lower_fix {c : Char} (h : isAllowedChar c = true) :
    toLowerChar c = c := by
  simp only [isAllowedChar, decide_eq_true_eq] at h
  have hne : ¬(65 ≤ c.toNat ∧ c.toNat ≤ 90) := by omega
  simp [toLowerChar, hne]

/-- A list of non-whitespace, lowercase-stable characters: keys built from
normalized components are of this shape, so `parseSessionKey`'s leading
`trim().toLowerCase()` leaves them unchanged. -/
def PlainChars (l : List Char) : Prop :=
  ∀ c ∈ l, isWsChar c = false ∧ toLowerChar c = c

theorem plain_normalize (s : List Char) : PlainChars (normalizeChars s) :=
  fun _ hc => ⟨allowed_not_ws (allowed_of_mem_normalize hc),
    allowed_lower_fix (allowed_of_mem_normalize hc)⟩

theorem plain_append {l₁ l₂ : List Char} (h₁ : PlainChars l₁)
    (h₂ : PlainChars l₂) : PlainChars (l₁ ++ l₂) := fun c hc =>
  (List.mem_append.mp hc).elim (h₁ c) (h₂ c)

theorem plain_cons {c : Char} {l : List Char}
    (hc : isWsChar c = false ∧ toLowerChar c = c) (h : PlainChars l) :
    PlainChars (c :: l) := by
  intro d hd
  rcases List.mem_cons.mp hd with hd | hd
  · subst hd; exact hc
  · exact h d hd

theorem plain_marker : PlainChars threadMarker := by
  intro c hc
  rw [show threadMarker = [':', 't', 'h', 'r', 'e', 'a', 'd', ':'] from rfl]
    at hc
  fin_cases hc <;> exact ⟨by decide, by decide⟩

/-- Dropping leading whitespace from an all-plain list is the identity. -/
theorem dropWhile_ws_eq_self {l : List Char}
    (h : ∀ c ∈ l, isWsChar c = false) : l.dropWhile isWsChar = l := by
  cases l with
  | nil => rfl
  | cons a rest =>
      have ha := h a (List.mem_cons_self a rest)
      simp [List.dropWhile_cons, ha]

/-- Trimming an all-plain list is the identity. -/
theorem trim_eq_self {l : List Char} (h : ∀ c ∈ l, isWsChar c = false) :
    trimChars l = l := by
  rw [trimChars, dropWhile_ws_eq_self h,
    dropWhile_ws_eq_self (fun c hc => h c (List.mem_reverse.mp hc)),
    List.reverse_reverse]

/-- Lowercasing an all-lowercase-stable list is the identity. -/
theorem lower_eq_self {l : List Char} (h : ∀ c ∈ l, toLowerChar c = c) :
    lowerChars l = l := by
  rw [lowerChars]
  calc l.map toLowerChar = l.map id := List.map_congr_left h
    _ = l := List.map_id l

/-- The `trim().toLowerCase()` preprocessing of `parseSessionKey` is the
identity on plain keys. -/
theorem pre_id {l : List Char} (h : PlainChars l) :
    lowerChars (trimChars l) = l := by
  rw [trim_eq_self (fun c hc => (h c hc).1),
    lower_eq_self (fun c hc => (h c hc).2)]

/-- Unfolding of `splitFirst` when the marker does not match at the head. -/
theorem splitFirst_cons_ne {m : List Char} {c : Char} {rest : List Char}
    (hne : (c :: rest).take m.length ≠ m) :
    splitFirst m (c :: rest)
      = match splitFirst m rest with
        | some pr => some (c :: pr.1, pr.2)
        | none => none := by
  rw [splitFirst, if_neg hne]
  cases splitFirst m rest with
  | none => rfl
  | some pr => obtain ⟨a, b⟩ := pr; rfl

/-- A marker starting with a colon never matches inside a colon-free block:
splitting `x ++ y` with colon-free `x` reduces to splitting `y`. -/
theorem splitFirst_append_left (m' : List Char) {m : List Char}
    (hm : m = ':' :: m') :
    ∀ (x y : List Char), ':' ∉ x →
      splitFirst m (x ++ y)
        = (splitFirst m y).map (fun pr => (x ++ pr.1, pr.2)) := by
  intro x
  induction x with
  | nil =>
      intro y _
      cases h : splitFirst m y with
      | none => simp [h]
      | some pr => simp [h]
  | cons c x' ih =>
      intro y hx
      have hc : c ≠ ':' := fun h => hx (h ▸ List.mem_cons_self c x')
      have hne : (c :: (x' ++ y)).take m.length ≠ m := by
        rw [hm]
        intro h
        rw [List.length_cons, List.take_succ_cons] at h
        injection h with h1 _
        exact hc h1
      rw [List.cons_append, splitFirst_cons_ne hne,
        ih y (fun h => hx (List.mem_cons_of_mem c h))]
      cases h : splitFirst m y with
      | none => simp
      | some pr => simp

/-- A marker starting with a colon does not occur in a colon-free list. -/
theorem splitFirst_none_of_no_colon (m' : List Char) {m : List Char}
    (hm : m = ':' :: m') :
    ∀ (y : List Char), ':' ∉ y → splitFirst m y = none := by
  intro y
  induction y with
  | nil => intro _; rfl
  | cons c rest ih =>
      intro hy
      have hc : c ≠ ':' := fun h => hy (h ▸ List.mem_cons_self c rest)
      have hne : (c :: rest).take m.length ≠ m := by
        rw [hm]
        intro h
        rw [List.length_cons, List.take_succ_cons] at h
        injection h with h1 _
        exact hc h1
      rw [splitFirst_cons_ne hne,
        ih (fun h => hy (List.mem_cons_of_mem c h))]

/-- The marker matches immediately when the list starts with it. -/
theorem splitFirst_at_start (m : List Char) (hm : m ≠ [])
    (T : List Char) : splitFirst m (m ++ T) = some ([], T) := by
  cases m with
  | nil => exact absurd rfl hm
  | cons c m'' =>
      have htake : (c :: (m'' ++ T)).take (c :: m'').length = c :: m'' := by
        rw [← List.cons_append]
        exact List.take_left _ _
      have hdrop : (c :: (m'' ++ T)).drop (c :: m'').length = T := by
        rw [← List.cons_append]
        exact List.drop_left _ _
      rw [List.cons_append, splitFirst, if_pos htake, hdrop]

/-- Detecting the marker right at the base colon: the eight characters
starting at the colon before a colon-free chat id `D` followed by the real
marker read `":thread:"` exactly when `D` is the literal `"thread"`. -/
theorem take_seven_eq_iff (D T : List Char) (hD : ':' ∉ D) :
    (D ++ (threadMarker ++ T)).take 7 = thc ↔ D = thr := by
  constructor
  · intro h
    by_cases hlen : 7 ≤ D.length
    · exfalso
      rw [List.take_append_of_le_length hlen] at h
      have hmem : ':' ∈ D.take 7 := by rw [h]; decide
      exact hD (List.take_subset _ _ hmem)
    · push_neg at hlen
      obtain ⟨n, hn⟩ : ∃ n, D.length = n := ⟨_, rfl⟩
      have hn6 : n ≤ 6 := by omega
      rw [List.take_append_eq_append_take,
        List.take_of_length_le (by omega : D.length ≤ 7), hn] at h
      have h2 : (threadMarker ++ T).take (7 - n)
          = threadMarker.take (7 - n) := by
        apply List.take_append_of_le_length
        have hml : threadMarker.length = 8 := rfl
        omega
      rw [h2] at h
      have h3 : threadMarker.take (7 - n) = ':' :: thc.take (6 - n) := by
        have h7 : 7 - n = (6 - n) + 1 := by omega
        have hmm : threadMarker = ':' :: thc := rfl
        rw [h7, hmm, List.take_succ_cons]
      rw [h3] at h
      have hDval : D = thc.take n := by
        have hcast := congrArg (List.take n) h
        rwa [List.take_left' hn] at hcast
      have hdrop : ':' :: thc.take (6 - n) = thc.drop n := by
        have hh : thc.take n ++ ':' :: thc.take (6 - n)
            = thc.take n ++ thc.drop n := by
          rw [List.take_append_drop, ← hDval]
          exact h
        exact List.append_cancel_left hh
      have hhead : (thc.drop n).head? = some ':' := by
        rw [← hdrop]; rfl
      interval_cases n
      · exact absurd hhead (by decide)
      · exact absurd hhead (by decide)
      · exact absurd hhead (by decide)
      · exact absurd hhead (by decide)
      · exact absurd hhead (by decide)
      · exact absurd hhead (by decide)
      · rw [hDval]; decide
  · intro h
    subst h
    rw [← List.append_assoc,
      List.take_append_of_le_length (by decide : 7 ≤ (thr ++ threadMarker).length)]
    decide

/-- No marker match at the base colon when the remainder is a colon-free
chat id alone. -/
theorem cons_take_ne_marker (D : List Char) (hD : ':' ∉ D) :
    (':' :: D).take threadMarker.length ≠ threadMarker := by
  intro h
  have hml : threadMarker.length = 8 := rfl
  have hmm : threadMarker = ':' :: thc := rfl
  rw [hml, List.take_succ_cons, hmm] at h
  injection h with _ h2
  have hmem : ':' ∈ D.take 7 := by rw [h2]; decide
  exact hD (List.take_subset _ _ hmem)

/-- No marker match at the base colon when the colon-free chat id `D`
differs from `"thread"`, even with a marker following. -/
theorem cons_take_ne_marker' (D T : List Char) (hD : ':' ∉ D)
    (hne : D ≠ thr) :
    (':' :: (D ++ (threadMarker ++ T))).take threadMarker.length
      ≠ threadMarker := by
  intro h
  have hml : threadMarker.length = 8 := rfl
  have hmm : threadMarker = ':' :: thc := rfl
  rw [hml, List.take_succ_cons, hmm] at h
  injection h with _ h2
  exact hne ((take_seven_eq_iff D T hD).mp h2)

/-- The first `":thread:"` occurrence in a well-formed thread key sits
exactly at the marker, provided the chat id is not the literal `"thread"`. -/
theorem splitFirst_key_thread (C D T : List Char) (hC : ':' ∉ C)
    (hD : ':' ∉ D) (hne : D ≠ thr) :
    splitFirst threadMarker (C ++ ':' :: (D ++ (threadMarker ++ T)))
      = some (C ++ ':' :: D, T) := by
  rw [splitFirst_append_left thc threadMarker_eq C _ hC,
    splitFirst_cons_ne (cons_take_ne_marker' D T hD hne),
    splitFirst_append_left thc threadMarker_eq D _ hD,
    splitFirst_at_start threadMarker (by decide) T]
  simp

/-- A thread-less key contains no `":thread:"` marker. -/
theorem splitFirst_key_base (C D : List Char) (hC : ':' ∉ C)
    (hD : ':' ∉ D) :
    splitFirst threadMarker (C ++ ':' :: D) = none := by
  rw [splitFirst_append_left thc threadMarker_eq C _ hC,
    splitFirst_cons_ne (cons_take_ne_marker D hD),
    splitFirst_none_of_no_colon thc threadMarker_eq D hD]
  rfl

/-- Parsing the base part of a built key recovers the two components. -/
theorem parseBaseKey_of_parts (C D : List Char) (hC : ':' ∉ C)
    (hCne : C ≠ []) (hDne : D ≠ []) :
    parseBaseKey (C ++ ':' :: D) = some (C, D) := by
  have h1 : splitFirst [':'] (C ++ ':' :: D) = some (C, D) := by
    have hsingle : ([':'] : List Char) = ':' :: [] := rfl
    rw [show C ++ ':' :: D = C ++ ([':'] ++ D) from by simp,
      splitFirst_append_left [] hsingle C _ hC,
      splitFirst_at_start [':'] (by decide) D]
    simp
  rw [parseBaseKey, h1]
  simp [hCne, hDne]

/-- Parsing a thread-less key built from plain, colon-free, non-empty
components recovers them. -/
theorem parse_base_key (C D : List Char) (hCp : PlainChars C)
    (hDp : PlainChars D) (hCf : ':' ∉ C) (hDf : ':' ∉ D)
    (hCne : C ≠ []) (hDne : D ≠ []) :
    parseSessionKey (C ++ ':' :: D) = some ⟨C, D, none⟩ := by
  have hplain : PlainChars (C ++ ':' :: D) :=
    plain_append hCp (plain_cons ⟨by decide, by decide⟩ hDp)
  have hkne : C ++ ':' :: D ≠ [] := by simp
  simp only [parseSessionKey]
  rw [pre_id hplain, if_neg hkne, splitFirst_key_base C D hCf hDf,
    parseBaseKey_of_parts C D hCf hCne hDne]
  rfl

/-- Parsing a thread key built from plain, colon-free, non-empty components
recovers them, provided the chat id is not the literal `"thread"`. -/
theorem parse_thread_key (C D T : List Char) (hCp : PlainChars C)
    (hDp : PlainChars D) (hTp : PlainChars T) (hCf : ':' ∉ C)
    (hDf : ':' ∉ D) (hCne : C ≠ []) (hDne : D ≠ []) (hne : D ≠ thr) :
    parseSessionKey ((C ++ ':' :: D) ++ (threadMarker ++ T))
      = some ⟨C, D, some T⟩ := by
  have hplain : PlainChars ((C ++ ':' :: D) ++ (threadMarker ++ T)) :=
    plain_append (plain_append hCp (plain_cons ⟨by decide, by decide⟩ hDp))
      (plain_append plain_marker hTp)
  have hkne : (C ++ ':' :: D) ++ (threadMarker ++ T) ≠ [] := by simp
  have hassoc : (C ++ ':' :: D) ++ (threadMarker ++ T)
      = C ++ ':' :: (D ++ (threadMarker ++ T)) := by simp
  have hbne : C ++ ':' :: D ≠ [] := by simp
  simp only [parseSessionKey]
  rw [pre_id hplain, if_neg hkne, hassoc,
    splitFirst_key_thread C D T hCf hDf hne]
  simp only [if_pos hbne, parseBaseKey_of_parts C D hCf hCne hDne]

/-- C3 (amended): for every `SessionKeyParts p` whose channel and chatId
normalize to non-empty strings and, when a non-empty threadId is present,
whose chatId does not normalize to the literal `"thread"`,
`parseSessionKey(buildSessionKey(p))` succeeds and returns exactly the
componentwise normalization of `p` (each component trimmed, lowercased, with
every character outside `[a-z0-9_-]` replaced by `-`), including the
normalized threadId when `p.threadId` is present and non-empty. -/
theorem sessionKey_roundtrip_amended (p : SessionKeyParts)
    (hch : normalizeChars p.channel ≠ [])
    (hid : normalizeChars p.chatId ≠ [])
    (hth : ∀ t, p.threadId = some t → t ≠ [] →
      normalizeChars p.chatId ≠ thr) :
    parseSessionKey (buildSessionKey p) = some (specNormalizeParts p) := by
  obtain ⟨ch, cid, tid⟩ := p
  cases tid with
  | none =>
      simp only [buildSessionKey, specNormalizeParts]
      exact parse_base_key _ _ (plain_normalize ch) (plain_normalize cid)
        (not_colon_mem_normalize ch) (not_colon_mem_normalize cid) hch hid
  | some t =>
      by_cases hte : t = []
      · subst hte
        simp only [buildSessionKey, specNormalizeParts, if_pos rfl]
        exact parse_base_key _ _ (plain_normalize ch) (plain_normalize cid)
          (not_colon_mem_normalize ch) (not_colon_mem_normalize cid) hch hid
      · have hne : normalizeChars cid ≠ thr := hth t rfl hte
        simp only [buildSessionKey, specNormalizeParts, if_neg hte]
        rw [List.append_assoc]
        exact parse_thread_key _ _ _ (plain_normalize ch)
          (plain_normalize cid) (plain_normalize t)
          (not_colon_mem_normalize ch) (not_colon_mem_normalize cid)
          hch hid hne

/-- Witness for the amended C3 at concrete inputs. -/
theorem sessionKey_roundtrip_amended_witness :
    parseSessionKey
        (buildSessionKey ⟨"CLI".data, "Chat 7".data, some "T!".data⟩)
      = some (specNormalizeParts
          ⟨"CLI".data, "Chat 7".data, some "T!".data⟩) :=
  sessionKey_roundtrip_amended ⟨"CLI".data, "Chat 7".data, some "T!".data⟩
    (by decide) (by decide) (fun _ _ _ => by decide)

end SessionKey

namespace SessionManager

/-- Status of an in-flight `createManagedSession` promise: still running,
resolved with a fresh session object, or rejected. -/
inductive CStatus where
  | inFlight
  | finished (obj : Nat)
  | failed
deriving Repr, DecidableEq

/-- Phase of one asynchronous task inside the `SessionManager`
(`src/session-manager.ts`), one constructor per synchronous block between
`await` suspension points of `getOrCreateByKey` (lines 71-102) and
`closeSession` (lines 144-159):
`gStart` — a `getOrCreateByKey(k)` call that has not yet run its first
block (the existing/pending checks through the `pendingCreations.set`);
`gJoin` — it found `pendingCreations.get(k) = c` and awaits creation `c`;
`gReg` — it registered creation `c` in `pendingCreations` and awaits it;
`gDone`/`gFail` — it returned the session object / rethrew;
`cStart` — a `closeSession(k)` call (explicit, TTL cleanup, or the
fire-and-forget eviction close) not yet run; `cWait` — it found the session
and awaits its `opChain` and optional `close()`; `cDone` — it has deleted
the map entry and returned. -/
inductive SMTask where
  | gStart (k : String)
  | gJoin (k : String) (c : Nat)
  | gReg (k : String) (c : Nat)
  | gDone (k : String) (o : Nat)
  | gFail (k : String)
  | cStart (k : String)
  | cWait (k : String)
  | cDone (k : String)
deriving Repr, DecidableEq

/-- Shared state of the `SessionManager` model: the `sessions` map (keys to
installed session-object ids), the `pendingCreations` map, the status of
each issued creation, the outstanding tasks, and fresh-id counters. -/
structure SMState where
  sessions : String → Option Nat
  pending : String → Option Nat
  creations : Nat → Option CStatus
  tasks : List SMTask
  nextCreation : Nat
  nextObj : Nat

/-- Pointwise update of a string-keyed map. -/
def setFun (f : String → Option Nat) (k : String) (v : Option Nat) :
    String → Option Nat :=
  fun k' => if k' = k then v else f k'

/-- Pointwise update of the creation-status map. -/
def setCre (f : Nat → Option CStatus) (c : Nat) (v : Option CStatus) :
    Nat → Option CStatus :=
  fun c' => if c' = c then v else f c'

/-- Small-step transition relation of the session-manager model.  Each step
is one synchronous block of the source between `await` points (which is the
atomicity the JS event loop guarantees), or the external resolution of a
creation promise.  `spawnGet`/`spawnClose` let new calls arrive at any time
(the eviction and TTL-cleanup closes are covered by `spawnClose`, making the
model a superset of the code's behaviors). -/
inductive Step : SMState → SMState → Prop where
  | spawnGet (s : SMState) (k : String) :
      Step s { s with tasks := s.tasks ++ [.gStart k] }
  | spawnClose (s : SMState) (k : String) :
      Step s { s with tasks := s.tasks ++ [.cStart k] }
  | hit (s : SMState) (l₁ l₂ : List SMTask) (k : String) (o : Nat)
      (ht : s.tasks = l₁ ++ .gStart k :: l₂)
      (hs : s.sessions k = some o) :
      Step s { s with tasks := l₁ ++ .gDone k o :: l₂ }
  | join (s : SMState) (l₁ l₂ : List SMTask) (k : String) (c : Nat)
      (ht : s.tasks = l₁ ++ .gStart k :: l₂)
      (hs : s.sessions k = none) (hp : s.pending k = some c) :
      Step s { s with tasks := l₁ ++ .gJoin k c :: l₂ }
  | register (s : SMState) (l₁ l₂ : List SMTask) (k : String)
      (ht : s.tasks = l₁ ++ .gStart k :: l₂)
      (hs : s.sessions k = none) (hp : s.pending k = none) :
      Step s { s with
        tasks := l₁ ++ .gReg k s.nextCreation :: l₂
        pending := setFun s.pending k (some s.nextCreation)
        creations := setCre s.creations s.nextCreation (some .inFlight)
        nextCreation := s.nextCreation + 1 }
  | createFinish (s : SMState) (c : Nat)
      (hc : s.creations c = some .inFlight) :
      Step s { s with
        creations := setCre s.creations c (some (.finished s.nextObj))
        nextObj := s.nextObj + 1 }
  | createFail (s : SMState) (c : Nat)
      (hc : s.creations c = some .inFlight) :
      Step s { s with creations := setCre s.creations c (some .failed) }
  | install (s : SMState) (l₁ l₂ : List SMTask) (k : String) (c o : Nat)
      (ht : s.tasks = l₁ ++ .gReg k c :: l₂)
      (hc : s.creations c = some (.finished o)) :
      Step s { s with
        tasks := l₁ ++ .gDone k o :: l₂
        sessions := setFun s.sessions k (some o)
        pending := setFun s.pending k none }
  | regFail (s : SMState) (l₁ l₂ : List SMTask) (k : String) (c : Nat)
      (ht : s.tasks = l₁ ++ .gReg k c :: l₂)
      (hc : s.creations c = some .failed) :
      Step s { s with
        tasks := l₁ ++ .gFail k :: l₂
        pending := setFun s.pending k none }
  | joinFinish (s : SMState) (l₁ l₂ : List SMTask) (k : String) (c o : Nat)
      (ht : s.tasks = l₁ ++ .gJoin k c :: l₂)
      (hc : s.creations c = some (.finished o)) :
      Step s { s with tasks := l₁ ++ .gDone k o :: l₂ }
  | joinFail (s : SMState) (l₁ l₂ : List SMTask) (k : String) (c : Nat)
      (ht : s.tasks = l₁ ++ .gJoin k c :: l₂)
      (hc : s.creations c = some .failed) :
      Step s { s with tasks := l₁ ++ .gFail k :: l₂ }
  | closeHit (s : SMState) (l₁ l₂ : List SMTask) (k : String)
      (ht : s.tasks = l₁ ++ .cStart k :: l₂)
      (hs : s.sessions k ≠ none) :
      Step s { s with tasks := l₁ ++ .cWait k :: l₂ }
  | closeMiss (s : SMState) (l₁ l₂ : List SMTask) (k : String)
      (ht : s.tasks = l₁ ++ .cStart k :: l₂)
      (hs : s.sessions k = none) :
      Step s { s with tasks := l₁ ++ .cDone k :: l₂ }
  | closeFinish (s : SMState) (l₁ l₂ : List SMTask) (k : String)
      (ht : s.tasks = l₁ ++ .cWait k :: l₂) :
      Step s { s with
        tasks := l₁ ++ .cDone k :: l₂
        sessions := setFun s.sessions k none }

/-- The freshly constructed manager: empty maps, no tasks. -/
def smInit : SMState :=
  { sessions := fun _ => none
    pending := fun _ => none
    creations := fun _ => none
    tasks := []
    nextCreation := 0
    nextObj := 0 }

/-- Reachability from the initial manager state. -/
def Reach (s : SMState) : Prop := Relation.ReflTransGen Step smInit s

/-- Does a task construct a session for key `k` (i.e. is it a registered
creation in flight for `k`)? -/
def isRegK (k : String) : SMTask → Bool
  | .gReg k' _ => k' == k
  | _ => false

/-- Number of constructions in flight for key `k`. -/
def RegCount (s : SMState) (k : String) : Nat :=
  s.tasks.countP (isRegK k)

/-- The inductive invariant: an installed session for `k` excludes a
pending creation for `k`; every registered constructor for `k` is the one
recorded in `pendingCreations`; and at most one construction is in flight
per key. -/
def Inv (s : SMState) : Prop :=
  ∀ k : String,
    ((s.sessions k).isSome → s.pending k = none) ∧
    (∀ c, SMTask.gReg k c ∈ s.tasks → s.pending k = some c) ∧
    RegCount s k ≤ 1

theorem setFun_same (f : String → Option Nat) (k : String)
    (v : Option Nat) : setFun f k v k = v := by simp [setFun]

theorem setFun_other (f : String → Option Nat) {k k' : String}
    (v : Option Nat) (h : k' ≠ k) : setFun f k v k' = f k' := by
  simp [setFun, h]

/-- Count of a predicate over a one-element replacement. -/
theorem countP_middle (p : SMTask → Bool) (l₁ l₂ : List SMTask)
    (t : SMTask) :
    (l₁ ++ t :: l₂).countP p
      = l₁.countP p + l₂.countP p + (if p t then 1 else 0) := by
  rw [List.countP_append, List.countP_cons]
  omega

/-- Membership after replacing the distinguished middle element. -/
theorem mem_of_mem_replace {t' x : SMTask} {l₁ l₂ : List SMTask}
    (h : x ∈ l₁ ++ t' :: l₂) : x = t' ∨ x ∈ l₁ ∨ x ∈ l₂ := by
  rcases List.mem_append.mp h with h | h
  · exact Or.inr (Or.inl h)
  · rcases List.mem_cons.mp h with h | h
    · exact Or.inl h
    · exact Or.inr (Or.inr h)

/-- Membership in either side block is membership around any middle. -/
theorem mem_old (t : SMTask) {x : SMTask} {l₁ l₂ : List SMTask}
    (h : x ∈ l₁ ∨ x ∈ l₂) : x ∈ l₁ ++ t :: l₂ :=
  h.elim (fun h => List.mem_append.mpr (Or.inl h))
    (fun h => List.mem_append.mpr (Or.inr (List.mem_cons_of_mem _ h)))

/-- Replacing the middle task by a non-constructor cannot raise the
construction count. -/
theorem count_le_of_replace {k : String} {l₁ l₂ : List SMTask}
    {t t' : SMTask} (h3 : (l₁ ++ t :: l₂).countP (isRegK k) ≤ 1)
    (h : isRegK k t' = false) :
    (l₁ ++ t' :: l₂).countP (isRegK k) ≤ 1 := by
  rw [countP_middle] at h3
  rw [countP_middle, h]
  have hif : (if (false : Bool) = true then (1 : Nat) else 0) = 0 := rfl
  rw [hif]
  omega

/-- When a constructor for `k` sits in the middle and the total count is at
most one, both side blocks are constructor-free. -/
theorem counts_zero_of_reg {k : String} {c : Nat} {l₁ l₂ : List SMTask}
    (h3 : (l₁ ++ SMTask.gReg k c :: l₂).countP (isRegK k) ≤ 1) :
    l₁.countP (isRegK k) = 0 ∧ l₂.countP (isRegK k) = 0 := by
  rw [countP_middle] at h3
  have hone : isRegK k (SMTask.gReg k c) = true := by simp [isRegK]
  rw [hone] at h3
  have hif : (if (true : Bool) = true then (1 : Nat) else 0) = 1 := rfl
  rw [hif] at h3
  omega

/-- A single constructor between constructor-free blocks counts one. -/
theorem count_one_of_sides_zero {k : String} {c : Nat} {l₁ l₂ : List SMTask}
    (h1 : l₁.countP (isRegK k) = 0) (h2 : l₂.countP (isRegK k) = 0) :
    (l₁ ++ SMTask.gReg k c :: l₂).countP (isRegK k) ≤ 1 := by
  rw [countP_middle, h1, h2]
  have hone : isRegK k (SMTask.gReg k c) = true := by simp [isRegK]
  rw [hone]
  have hif : (if (true : Bool) = true then (1 : Nat) else 0) = 1 := rfl
  rw [hif]

/-- A constructor-free side block contains no `gReg` task for `k`. -/
theorem not_reg_of_count_zero {k : String} {c : Nat} {l : List SMTask}
    (h : l.countP (isRegK k) = 0) : SMTask.gReg k c ∉ l := by
  intro hmem
  have := List.countP_eq_zero.mp h _ hmem
  simp [isRegK] at this

/-- Replacing a non-constructor task by a non-constructor task, leaving the
maps untouched, preserves the invariant. -/
theorem Inv_replace_nonreg {s : SMState} (hinv : Inv s)
    {l₁ l₂ : List SMTask} {t t' : SMTask} (ht : s.tasks = l₁ ++ t :: l₂)
    (ht' : ∀ k c, t' ≠ .gReg k c)
    (htne : ∀ k, isRegK k t' = false) :
    Inv { s with tasks := l₁ ++ t' :: l₂ } := by
  intro k
  obtain ⟨h1, h2, h3⟩ := hinv k
  dsimp only
  refine ⟨h1, ?_, ?_⟩
  · intro c hc
    rcases mem_of_mem_replace hc with hc | hc
    · exact absurd hc.symm (ht' k c)
    · exact h2 c (ht ▸ mem_old t hc)
  · rw [RegCount, ht] at h3
    exact count_le_of_replace h3 (htne k)

/-- One step preserves the invariant. -/
theorem Inv_step {s s' : SMState} (hinv : Inv s) (hstep : Step s s') :
    Inv s' := by
  cases hstep with
  | spawnGet k0 =>
      intro k
      obtain ⟨h1, h2, h3⟩ := hinv k
      dsimp only
      refine ⟨h1, ?_, ?_⟩
      · intro c hc
        rcases List.mem_append.mp hc with hc | hc
        · exact h2 c hc
        · simp at hc
      · show (s.tasks ++ [SMTask.gStart k0]).countP (isRegK k) ≤ 1
        rw [List.countP_append,
          (rfl : ([SMTask.gStart k0]).countP (isRegK k) = 0)]
        simpa [RegCount] using h3
  | spawnClose k0 =>
      intro k
      obtain ⟨h1, h2, h3⟩ := hinv k
      dsimp only
      refine ⟨h1, ?_, ?_⟩
      · intro c hc
        rcases List.mem_append.mp hc with hc | hc
        · exact h2 c hc
        · simp at hc
      · show (s.tasks ++ [SMTask.cStart k0]).countP (isRegK k) ≤ 1
        rw [List.countP_append,
          (rfl : ([SMTask.cStart k0]).countP (isRegK k) = 0)]
        simpa [RegCount] using h3
  | hit l₁ l₂ k0 o ht hs =>
      exact Inv_replace_nonreg hinv ht (fun _ _ => by simp) (fun _ => rfl)
  | join l₁ l₂ k0 c ht hs hp =>
      exact Inv_replace_nonreg hinv ht (fun _ _ => by simp) (fun _ => rfl)
  | register l₁ l₂ k0 ht hs hp =>
      intro k
      obtain ⟨h1, h2, h3⟩ := hinv k
      dsimp only
      by_cases hk : k = k0
      · subst hk
        refine ⟨?_, ?_, ?_⟩
        · intro habs
          rw [hs] at habs
          simp at habs
        · intro c hc
          rw [setFun_same]
          rcases mem_of_mem_replace hc with hc | hc
          · injection hc with _ hcv
            rw [hcv]
          · exact absurd (hp ▸ h2 c (ht ▸ mem_old (SMTask.gStart k) hc))
              (by simp)
        · have hzero : l₁.countP (isRegK k) = 0 ∧
              l₂.countP (isRegK k) = 0 := by
            constructor <;>
              · rw [List.countP_eq_zero]
                intro a ha hreg
                cases a with
                | gReg k' c =>
                    have hk' : k' = k := by
                      simpa [isRegK] using hreg
                    have ha' := hk' ▸ ha
                    have hpc := h2 c (ht ▸ mem_old (SMTask.gStart k)
                      (by first | exact Or.inl ha' | exact Or.inr ha'))
                    rw [hp] at hpc
                    exact Option.noConfusion hpc
                | gStart _ => exact Bool.noConfusion hreg
                | gJoin _ _ => exact Bool.noConfusion hreg
                | gDone _ _ => exact Bool.noConfusion hreg
                | gFail _ => exact Bool.noConfusion hreg
                | cStart _ => exact Bool.noConfusion hreg
                | cWait _ => exact Bool.noConfusion hreg
                | cDone _ => exact Bool.noConfusion hreg
          exact count_one_of_sides_zero hzero.1 hzero.2
      · have hk0 : ¬ k0 = k := fun h => hk h.symm
        refine ⟨?_, ?_, ?_⟩
        · intro habs
          rw [setFun_other _ _ hk]
          exact h1 habs
        · intro c hc
          rw [setFun_other _ _ hk]
          rcases mem_of_mem_replace hc with hc | hc
          · injection hc with hck _
            exact absurd hck hk
          · exact h2 c (ht ▸ mem_old (SMTask.gStart k0) hc)
        · rw [RegCount, ht] at h3
          refine count_le_of_replace h3 ?_
          have hiso : isRegK k (SMTask.gReg k0 s.nextCreation)
              = (k0 == k) := rfl
          rw [hiso]
          simp [hk0]
  | createFinish c hc =>
      intro k
      exact hinv k
  | createFail c hc =>
      intro k
      exact hinv k
  | install l₁ l₂ k0 c o ht hc =>
      intro k
      obtain ⟨h1, h2, h3⟩ := hinv k
      dsimp only
      by_cases hk : k = k0
      · subst hk
        rw [RegCount, ht] at h3
        have hzero := counts_zero_of_reg h3
        refine ⟨?_, ?_, ?_⟩
        · intro _
          rw [setFun_same]
        · intro c' hc'
          rcases mem_of_mem_replace hc' with hc' | hc'
          · exact absurd hc' (by simp)
          · exfalso
            rcases hc' with hmem | hmem
            · exact not_reg_of_count_zero hzero.1 hmem
            · exact not_reg_of_count_zero hzero.2 hmem
        · show (l₁ ++ SMTask.gDone k o :: l₂).countP (isRegK k) ≤ 1
          exact count_le_of_replace h3 rfl
      · refine ⟨?_, ?_, ?_⟩
        · intro habs
          rw [setFun_other _ _ hk] at habs ⊢
          exact h1 habs
        · intro c' hc'
          rw [setFun_other _ _ hk]
          rcases mem_of_mem_replace hc' with hc' | hc'
          · exact absurd hc' (by simp)
          · exact h2 c' (ht ▸ mem_old (SMTask.gReg k0 c) hc')
        · rw [RegCount, ht] at h3
          exact count_le_of_replace h3 rfl
  | regFail l₁ l₂ k0 c ht hc =>
      intro k
      obtain ⟨h1, h2, h3⟩ := hinv k
      dsimp only
      by_cases hk : k = k0
      · subst hk
        rw [RegCount, ht] at h3
        have hzero := counts_zero_of_reg h3
        refine ⟨?_, ?_, ?_⟩
        · intro habs
          rw [setFun_same]
        · intro c' hc'
          rcases mem_of_mem_replace hc' with hc' | hc'
          · exact absurd hc' (by simp)
          · exfalso
            rcases hc' with hmem | hmem
            · exact not_reg_of_count_zero hzero.1 hmem
            · exact not_reg_of_count_zero hzero.2 hmem
        · show (l₁ ++ SMTask.gFail k :: l₂).countP (isRegK k) ≤ 1
          exact count_le_of_replace h3 rfl
      · refine ⟨?_, ?_, ?_⟩
        · intro habs
          rw [setFun_other _ _ hk]
          exact h1 habs
        · intro c' hc'
          rw [setFun_other _ _ hk]
          rcases mem_of_mem_replace hc' with hc' | hc'
          · exact absurd hc' (by simp)
          · exact h2 c' (ht ▸ mem_old (SMTask.gReg k0 c) hc')
        · rw [RegCount, ht] at h3
          exact count_le_of_replace h3 rfl
  | joinFinish l₁ l₂ k0 c o ht hc =>
      exact Inv_replace_nonreg hinv ht (fun _ _ => by simp) (fun _ => rfl)
  | joinFail l₁ l₂ k0 c ht hc =>
      exact Inv_replace_nonreg hinv ht (fun _ _ => by simp) (fun _ => rfl)
  | closeHit l₁ l₂ k0 ht hs =>
      exact Inv_replace_nonreg hinv ht (fun _ _ => by simp) (fun _ => rfl)
  | closeMiss l₁ l₂ k0 ht hs =>
      exact Inv_replace_nonreg hinv ht (fun _ _ => by simp) (fun _ => rfl)
  | closeFinish l₁ l₂ k0 ht =>
      intro k
      obtain ⟨h1, h2, h3⟩ := hinv k
      dsimp only
      by_cases hk : k = k0
      · subst hk
        refine ⟨?_, ?_, ?_⟩
        · intro habs
          rw [setFun_same] at habs
          simp at habs
        · intro c hc
          rcases mem_of_mem_replace hc with hc | hc
          · exact absurd hc (by simp)
          · exact h2 c (ht ▸ mem_old (SMTask.cWait k) hc)
        · rw [RegCount, ht] at h3
          exact count_le_of_replace h3 rfl
      · refine ⟨?_, ?_, ?_⟩
        · intro habs
          rw [setFun_other _ _ hk] at habs
          exact h1 habs
        · intro c hc
          rcases mem_of_mem_replace hc with hc | hc
          · exact absurd hc (by simp)
          · exact h2 c (ht ▸ mem_old (SMTask.cWait k0) hc)
        · rw [RegCount, ht] at h3
          exact count_le_of_replace h3 rfl

/-- The invariant holds in every reachable state. -/
theorem Inv_reach {s : SMState} (h : Reach s) : Inv s := by
  induction h with
  | refl =>
      intro k
      refine ⟨by simp [smInit], by simp [smInit], by simp [RegCount, smInit]⟩
  | tail _ hstep ih => exact Inv_step ih hstep

/-- C5: in every reachable state of the session-manager model, each key has
at most one live session object: while a session is installed in the
`sessions` map, its `pendingCreations` slot is empty and NO construction is
in flight for that key (so a second object is never constructed while one
is installed); at most one construction is ever in flight per key
(single-flight — concurrent `getOrCreate`/`getOrCreateByKey` calls take the
`gJoin` transition, awaiting the pending creation instead of starting one);
and the construction in flight for a key is exactly the creation recorded
in the `pendingCreations` map, the one joiners await. -/
theorem session_manager_single_flight (s : SMState) (h : Reach s)
    (k : String) :
    ((s.sessions k).isSome → s.pending k = none ∧ RegCount s k = 0) ∧
    RegCount s k ≤ 1 ∧
    (∀ c, SMTask.gReg k c ∈ s.tasks → s.pending k = some c) := by
  obtain ⟨h1, h2, h3⟩ := Inv_reach h k
  refine ⟨?_, h3, h2⟩
  intro hsome
  refine ⟨h1 hsome, ?_⟩
  rw [RegCount, List.countP_eq_zero]
  intro a ha hreg
  cases a with
  | gReg k' c =>
      have hk' : k' = k := by simpa [isRegK] using hreg
      subst hk'
      have := h2 c ha
      rw [h1 hsome] at this
      exact Option.noConfusion this
  | gStart _ => exact Bool.noConfusion hreg
  | gJoin _ _ => exact Bool.noConfusion hreg
  | gDone _ _ => exact Bool.noConfusion hreg
  | gFail _ => exact Bool.noConfusion hreg
  | cStart _ => exact Bool.noConfusion hreg
  | cWait _ => exact Bool.noConfusion hreg
  | cDone _ => exact Bool.noConfusion hreg

/-- Witness for C5 at a concrete reachable state: one step after a
`getOrCreateByKey("http:abc")` call arrives, at most one construction is in
flight for that key. -/
theorem session_manager_single_flight_witness :
    RegCount { smInit with tasks := [SMTask.gStart "http:abc"] }
      "http:abc" ≤ 1 :=
  (session_manager_single_flight _
    (Relation.ReflTransGen.single (Step.spawnGet smInit "http:abc"))
    "http:abc").2.1

end SessionManager

namespace AgentServer

/-- Hex digits of the `[a-f0-9]` class. -/
def isHexChar (c : Char) : Bool :=
  decide ((48 ≤ c.toNat ∧ c.toNat ≤ 57) ∨ (97 ≤ c.toNat ∧ c.toNat ≤ 102))

/-- The anchored regex `/^.+-[a-f0-9]{16}$/` of the `/chat` handler: at
least one leading character, a dash, then sixteen hex digits at the end. -/
def hasSecureSuffix (s : List Char) : Bool :=
  decide (18 ≤ s.length) && (s.drop (s.length - 16)).all isHexChar &&
    (s[s.length - 17]? == some '-')

/-- Session-id computation of the `/chat` handler (`agent-server`, second
part of `src/sdk/types.ts`): absent or empty (falsy) ids get a fresh
`session-<16 hex>`; ids already carrying the secure suffix are reused
verbatim; other ids get the crypto suffix appended. -/
def computeSessionId (provided : Option (List Char))
    (suffix : List Char) : List Char :=
  match provided with
  | none => "session-".data ++ suffix
  | some p =>
      if p = [] then "session-".data ++ suffix
      else if hasSecureSuffix p then p
      else p ++ '-' :: suffix

/-- Phase of one in-flight `/chat` request, one constructor per synchronous
block between `await` points of the handler and its `getOrCreateSession`:
`start` — handler entered, about to run the map lookup; `mkdirWait` — the
lookup missed, awaiting `fs.mkdir`; `createWait` — awaiting
`createAgentSession`; `prompting` — the session object is in hand (map hit,
or just installed by `sessions.set`) and `session.prompt` is in flight;
`done` — the prompt settled and the response was returned. -/
inductive ASTask where
  | start (sid : List Char)
  | mkdirWait (sid : List Char)
  | createWait (sid : List Char)
  | prompting (sid : List Char) (obj : Nat)
  | done (sid : List Char) (obj : Nat)
deriving Repr, DecidableEq

/-- State of one agent server: the `sessions` map (session id to
`AgentSession` object), the in-flight `/chat` requests, and a fresh-object
counter. -/
structure ASState where
  smap : List (List Char × Nat)
  tasks : List ASTask
  nextObj : Nat
deriving Repr, DecidableEq

/-- `sessions.get(sessionId)`. -/
def lookupS (m : List (List Char × Nat)) (sid : List Char) : Option Nat :=
  (m.find? (fun p => p.1 = sid)).map Prod.snd

/-- `sessions.set(sessionId, newSession)`: overwrite or append. -/
def setS (m : List (List Char × Nat)) (sid : List Char) (v : Nat) :
    List (List Char × Nat) :=
  if m.any (fun p => p.1 = sid) then
    m.map (fun p => if p.1 = sid then (p.1, v) else p)
  else m ++ [(sid, v)]

/-- Small-step transition relation of the agent-server `/chat` handler.
Nothing in the handler chains one request's `prompt` after another's: a
request whose lookup hits goes straight to `prompting`, regardless of any
other request already prompting on the same session. -/
inductive ASStep : ASState → ASState → Prop where
  | checkHit (s : ASState) (l₁ l₂ : List ASTask) (sid : List Char) (o : Nat)
      (ht : s.tasks = l₁ ++ .start sid :: l₂)
      (hs : lookupS s.smap sid = some o) :
      ASStep s { s with tasks := l₁ ++ .prompting sid o :: l₂ }
  | checkMiss (s : ASState) (l₁ l₂ : List ASTask) (sid : List Char)
      (ht : s.tasks = l₁ ++ .start sid :: l₂)
      (hs : lookupS s.smap sid = none) :
      ASStep s { s with tasks := l₁ ++ .mkdirWait sid :: l₂ }
  | mkdirDone (s : ASState) (l₁ l₂ : List ASTask) (sid : List Char)
      (ht : s.tasks = l₁ ++ .mkdirWait sid :: l₂) :
      ASStep s { s with tasks := l₁ ++ .createWait sid :: l₂ }
  | createDone (s : ASState) (l₁ l₂ : List ASTask) (sid : List Char)
      (ht : s.tasks = l₁ ++ .createWait sid :: l₂) :
      ASStep s { s with
        tasks := l₁ ++ .prompting sid s.nextObj :: l₂
        smap := setS s.smap sid s.nextObj
        nextObj := s.nextObj + 1 }
  | promptSettled (s : ASState) (l₁ l₂ : List ASTask) (sid : List Char)
      (o : Nat) (ht : s.tasks = l₁ ++ .prompting sid o :: l₂) :
      ASStep s { s with tasks := l₁ ++ .done sid o :: l₂ }

/-- Number of requests currently inside a `session.prompt` call for the
given session id. -/
def promptCount (s : ASState) (sid : List Char) : Nat :=
  s.tasks.countP (fun t =>
    match t with
    | .prompting sid' _ => sid' == sid
    | _ => false)

/-- The pre-hardened session id both concurrent requests carry. -/
def sid0 : List Char := "abc-1111111111111111".data

/-- Two concurrent `POST /chat` requests with the same session id, hitting
a server with an empty session map. -/
def asInit2 : ASState :=
  { smap := [], tasks := [.start sid0, .start sid0], nextObj := 0 }

/-- The overlapping state the schedule below reaches: both requests inside
`session.prompt` on the same session simultaneously. -/
def asOverlap : ASState :=
  { smap := [(sid0, 0)]
    tasks := [.prompting sid0 0, .prompting sid0 0]
    nextObj := 1 }

/-- The overlapping schedule: request 1 misses, creates and installs the
session and begins its prompt; while that prompt is in flight, request 2's
lookup hits and it begins prompting too. -/
theorem asOverlap_reachable :
    Relation.ReflTransGen ASStep asInit2 asOverlap := by
  have h1 : ASStep asInit2
      { smap := [], tasks := [ASTask.mkdirWait sid0, ASTask.start sid0],
        nextObj := 0 } :=
    ASStep.checkMiss asInit2 [] [ASTask.start sid0] sid0 rfl (by decide)
  have h2 : ASStep
      { smap := [], tasks := [ASTask.mkdirWait sid0, ASTask.start sid0],
        nextObj := 0 }
      { smap := [], tasks := [ASTask.createWait sid0, ASTask.start sid0],
        nextObj := 0 } :=
    ASStep.mkdirDone _ [] [ASTask.start sid0] sid0 rfl
  have h3 : ASStep
      { smap := [], tasks := [ASTask.createWait sid0, ASTask.start sid0],
        nextObj := 0 }
      { smap := [(sid0, 0)],
        tasks := [ASTask.prompting sid0 0, ASTask.start sid0],
        nextObj := 1 } :=
    ASStep.createDone _ [] [ASTask.start sid0] sid0 rfl
  have h4 : ASStep
      { smap := [(sid0, 0)],
        tasks := [ASTask.prompting sid0 0, ASTask.start sid0],
        nextObj := 1 }
      asOverlap :=
    ASStep.checkHit _ [ASTask.prompting sid0 0] [] sid0 0 rfl (by decide)
  exact Relation.ReflTransGen.tail
    (Relation.ReflTransGen.tail
      (Relation.ReflTransGen.tail
        (Relation.ReflTransGen.single h1) h2) h3) h4

/-- Counterexample to C2: it is NOT the case that in every reachable state
of the agent server at most one `/chat` request per session id is inside
`session.prompt` — the handler takes the session from its local map and
calls `prompt` directly, with no `withSession` serialization, so two
same-session prompts can overlap. -/
theorem agent_server_chat_counterexample :
    ¬ (∀ s, Relation.ReflTransGen ASStep asInit2 s →
        ∀ sid, promptCount s sid ≤ 1) := by
  intro h
  have h2 := h asOverlap asOverlap_reachable sid0
  have hcount : promptCount asOverlap sid0 = 2 := by decide
  omega

/-- C2 (amended): the `/chat` handler computes the session id (reusing a
pre-hardened id verbatim), obtains the session object from the per-server
session map via `getOrCreateSession`, and calls `session.prompt` directly;
concurrent same-session requests are NOT serialized: a reachable state has
both requests prompting simultaneously on the single map-installed session
object.  Requests with distinct session ids likewise proceed in parallel. -/
theorem agent_server_chat_amended :
    computeSessionId (some sid0) "0123456789abcdef".data = sid0 ∧
    (∃ s, Relation.ReflTransGen ASStep asInit2 s ∧
      promptCount s sid0 = 2 ∧ lookupS s.smap sid0 = some 0 ∧
      s.tasks = [.prompting sid0 0, .prompting sid0 0]) := by
  refine ⟨by decide, asOverlap, asOverlap_reachable, by decide, by decide,
    rfl⟩

end AgentServer

end Tinycrab
